import Mathlib

/-!
# Verification of the ARIA Context & Knowledge Memory subsystem

A shallow embedding, in Lean 4, of the core services of the repository:

* `app/services/vector_service.py` — the embedding index (`create_verse_embeddings`,
  `search_verses`), with ChromaDB collections modelled as named lists of entries and
  the nearest-neighbor engine modelled as a stable sort by squared L2 distance;
* `app/services/bible_rag_service.py` — `_ensure_embeddings_exist`, `_call_ollama`,
  `_clean_response`, `_generate_bible_response` and the answer pipeline of
  `ask_bible_question`;
* `app/services/context_memory_service.py` — `store_conversation`,
  `get_recent_conversations`, `_cache_recent_conversation`, `_get_cached_conversations`,
  `get_user_context` / `set_user_context`, `_get_current_session`,
  `learn_from_interaction`, `_update_interaction_patterns` and `_extract_topics`.

External effects are made explicit: the embedding function is a parameter,
fallible calls (database commit, Redis, batch embedding, the generation HTTP
call) are parametrized by injected outcomes, timestamps and TTLs are natural
numbers, and vector components are rationals.
-/

namespace Aria

/-! ## Character/string helpers (Python `str.lower` and `in` on ASCII text) -/

/-- ASCII lower-casing of one character, as Python `str.lower` acts on the
letters appearing in the topic vocabulary. -/
def lowerChar (c : Char) : Char :=
  if 65 ≤ c.toNat ∧ c.toNat ≤ 90 then Char.ofNat (c.toNat + 32) else c

/-- Lower-case a string character by character. -/
def strLower (s : String) : String := ⟨s.data.map lowerChar⟩

/-- Contiguous-sublist test on character lists: Python `needle in hay`. -/
def isSubList (needle : List Char) : List Char → Bool
  | [] => needle.isEmpty
  | c :: rest => needle.isPrefixOf (c :: rest) || isSubList needle rest

/-- Python `needle in hay` on strings. -/
def containsSub (hay needle : String) : Bool := isSubList needle.data hay.data

/-! ## Vector store model (`vector_service.py`)

A ChromaDB client holds named collections; each collection is a list of
(id, vector, metadata, document) entries in insertion order. -/

/-- One row of the verses DataFrame handed to `create_verse_embeddings`. -/
structure VerseRecord where
  verseId : String
  book : String
  chapter : Nat
  verse : Nat
  text : String
  reference : String
deriving Repr, DecidableEq

/-- The metadata dict stored with each verse embedding. -/
structure VMeta where
  book : String
  chapter : Nat
  verse : Nat
  reference : String
  translation : String
  text : String
deriving Repr, DecidableEq

/-- One stored (id, vector, metadata, document) tuple. -/
structure VEntry where
  id : String
  vector : List ℚ
  metadata : VMeta
  document : String
deriving Repr, DecidableEq

/-- A named ChromaDB collection. -/
structure VCollection where
  name : String
  entries : List VEntry
deriving Repr, DecidableEq

/-- The persistent ChromaDB client state. -/
structure VState where
  collections : List VCollection
deriving Repr, DecidableEq

/-- `f"bible_verses_{translation.lower()}"`. -/
def verseCollName (translation : String) : String :=
  "bible_verses_" ++ strLower translation

/-- The text embedded for a verse: `f"{row['Reference']}: {row['Text']}"`. -/
def verseDocument (r : VerseRecord) : String :=
  r.reference ++ ": " ++ r.text

/-- The metadata dict built for a verse row. -/
def verseMeta (translation : String) (r : VerseRecord) : VMeta :=
  { book := r.book
    chapter := r.chapter
    verse := r.verse
    reference := r.reference
    translation := translation
    text := r.text }

/-- The full entry inserted for one verse row; the id is
`f"{translation}_{row['VerseId']}"` and the vector comes from the embedding
function applied to the document text. -/
def verseEntry (embed : String → List ℚ) (translation : String) (r : VerseRecord) : VEntry :=
  { id := (translation ++ "_") ++ r.verseId
    vector := embed (verseDocument r)
    metadata := verseMeta translation r
    document := verseDocument r }

/-- Does the client already have a collection of this name
(`get_collection` succeeding / membership in `get_collection_info`)? -/
def hasCollection (s : VState) (name : String) : Bool :=
  s.collections.any (fun c => c.name == name)

/-- The entries of the named collection, `[]` if the collection is absent. -/
def entriesOf (s : VState) (name : String) : List VEntry :=
  match s.collections.find? (fun c => c.name == name) with
  | some c => c.entries
  | none => []

/-- All collections of the client carrying a given name (used to state that
exactly one populated collection exists). -/
def collsNamed (s : VState) (name : String) : List VCollection :=
  s.collections.filter (fun c => c.name == name)

/-- The get-or-create step at the top of `create_verse_embeddings`:
`get_collection` falling back to `create_collection`. -/
def getOrCreate (s : VState) (name : String) : VState :=
  if hasCollection s name then s
  else { collections := s.collections ++ [{ name := name, entries := [] }] }

/-- `collection.add(...)`: append a batch of entries to the named collection. -/
def addToCollection (s : VState) (name : String) (new : List VEntry) : VState :=
  { collections :=
      s.collections.map (fun c =>
        if c.name == name then { c with entries := c.entries ++ new } else c) }

/-- The batch loop of `create_verse_embeddings` (batch size 100): batch `i`
embeds and inserts `pending[0:100]`; `ok i` is the injected outcome of that
batch (the `model.encode` plus `collection.add` call).  On the first failing
batch the surrounding `except` aborts the build, leaving the entries already
inserted in place, and the function reports failure. -/
def addVerseBatches (s : VState) (name : String) (pending : List VEntry)
    (batchIdx : Nat) (ok : Nat → Bool) : VState × Bool :=
  match pending with
  | [] => (s, true)
  | e :: rest =>
    if ok batchIdx then
      addVerseBatches (addToCollection s name ((e :: rest).take 100)) name
        ((e :: rest).drop 100) (batchIdx + 1) ok
    else (s, false)
termination_by pending.length
decreasing_by
  simp only [List.length_drop, List.length_cons]
  exact Nat.sub_lt (Nat.succ_pos _) (by norm_num)

/-- `create_verse_embeddings`: get-or-create the collection, then insert all
verse entries in batches of 100.  Returns the new client state and the
`True`/`False` result of the Python function. -/
def create_verse_embeddings (s : VState) (records : List VerseRecord)
    (translation : String) (embed : String → List ℚ) (ok : Nat → Bool) : VState × Bool :=
  let collection_name := verseCollName translation
  let s1 := getOrCreate s collection_name
  let entries := records.map (verseEntry embed translation)
  addVerseBatches s1 collection_name entries 0 ok

/-- The per-translation body of `_ensure_embeddings_exist`: if the collection
name is absent from `get_collection_info`, build it; otherwise do nothing.
The boolean result of the build is discarded, exactly as in the source. -/
def ensureVerseEmbeddings (s : VState) (records : List VerseRecord)
    (translation : String) (embed : String → List ℚ) (ok : Nat → Bool) : VState :=
  let collection_name := verseCollName translation
  if hasCollection s collection_name then s
  else (create_verse_embeddings s records translation embed ok).1

/-- Squared L2 distance between two vectors over their shared dimensions
(ChromaDB's default `l2` space). -/
def sqDist : List ℚ → List ℚ → ℚ
  | a :: as, b :: bs => (a - b) * (a - b) + sqDist as bs
  | _, _ => 0

/-- One formatted result row of `search_verses`. -/
structure SearchResult where
  book : String
  chapter : Nat
  verse : Nat
  reference : String
  text : String
  translation : String
  similarity_score : ℚ
  full_document : String
deriving Repr, DecidableEq

/-- The nearest-neighbor engine behind `collection.query`: entries sorted by
ascending distance to the query vector (stably, so ties keep insertion
order), truncated to `n_results`. -/
def nnQuery (entries : List VEntry) (qv : List ℚ) (k : Nat) : List VEntry :=
  (List.insertionSort (fun a b => sqDist qv a.vector ≤ sqDist qv b.vector) entries).take k

/-- `search_verses`: embed the query, run nearest-neighbor search on the
translation's collection, and format each hit with
`similarity_score = 1 - distance`.  A missing collection yields `[]`. -/
def search_verses (s : VState) (embed : String → List ℚ) (query : String)
    (translation : String) (limit : Nat) : List SearchResult :=
  let collection_name := verseCollName translation
  match s.collections.find? (fun c => c.name == collection_name) with
  | none => []
  | some c =>
    let qv := embed query
    (nnQuery c.entries qv limit).map (fun e =>
      { book := e.metadata.book
        chapter := e.metadata.chapter
        verse := e.metadata.verse
        reference := e.metadata.reference
        text := e.metadata.text
        translation := e.metadata.translation
        similarity_score := 1 - sqDist qv e.vector
        full_document := e.document })

/-! ## Pattern learner model (`learn_from_interaction`, `_extract_topics`,
`_update_interaction_patterns`) -/

/-- The JSON `pattern_data` payload of an `InteractionPattern` row. -/
inductive PatternData where
  | topic (t : String)
  | hours (h : List (String × Nat))
  | types (m : List (String × Nat))
deriving Repr, DecidableEq

/-- One `InteractionPattern` row (single user, as the service fixes
`user_id = "default_user"`). -/
structure Pattern where
  pattern_type : String
  pattern_data : PatternData
  frequency : Nat
  confidence_score : ℚ
deriving Repr, DecidableEq

/-- The fixed topic vocabulary of `_extract_topics`. -/
def topicKeywords : List (String × List String) :=
  [("time", ["time", "clock", "hour", "minute", "when"]),
   ("weather", ["weather", "temperature", "rain", "sunny", "cloudy"]),
   ("greeting", ["hello", "hi", "good morning", "good afternoon", "good evening"]),
   ("help", ["help", "assist", "support", "how to"]),
   ("music", ["music", "song", "play", "listen"]),
   ("reminder", ["remind", "remember", "schedule", "appointment"]),
   ("question", ["what", "how", "why", "where", "when", "who"])]

/-- `_extract_topics`: empty input gives no topics; otherwise every topic one
of whose keywords occurs as a substring of the lower-cased text, in
vocabulary order. -/
def extractTopics (text : String) : List String :=
  if text = "" then []
  else
    let lower := strLower text
    (topicKeywords.filter (fun tw => tw.2.any (fun w => containsSub lower w))).map Prod.fst

/-- Python dict read `d.get(k, 0)` on an association list. -/
def getAssoc (m : List (String × Nat)) (k : String) : Nat :=
  match m.find? (fun p => p.1 == k) with
  | some p => p.2
  | none => 0

/-- Python dict write `d[k] = v`: replace in place, or append a new key. -/
def setAssoc (m : List (String × Nat)) (k : String) (v : Nat) : List (String × Nat) :=
  if m.any (fun p => p.1 == k) then
    m.map (fun p => if p.1 == k then (k, v) else p)
  else m ++ [(k, v)]

/-- The per-topic update inside `learn_from_interaction`: bump the first
`topic_interest` row carrying this topic (frequency `+1`, confidence
`min 1 (c + 0.1)`), or insert a fresh row with frequency 1 and
confidence 0.5. -/
def bumpTopic (ps : List Pattern) (t : String) : List Pattern :=
  match ps with
  | [] => [⟨"topic_interest", PatternData.topic t, 1, 1/2⟩]
  | p :: rest =>
    if p.pattern_type == "topic_interest" && p.pattern_data == PatternData.topic t then
      { p with frequency := p.frequency + 1,
               confidence_score := min 1 (p.confidence_score + 1/10) } :: rest
    else p :: bumpTopic rest t

/-- The hour-of-day histogram update inside `learn_from_interaction`: bump the
first `active_hours` row, or insert one (confidence defaults to 0.5 in the
model). -/
def bumpHours (ps : List Pattern) (hour : Nat) : List Pattern :=
  match ps with
  | [] => [⟨"active_hours", PatternData.hours [(toString hour, 1)], 1, 1/2⟩]
  | p :: rest =>
    if p.pattern_type == "active_hours" then
      { p with
          pattern_data :=
            match p.pattern_data with
            | PatternData.hours h =>
                PatternData.hours (setAssoc h (toString hour) (getAssoc h (toString hour) + 1))
            | d => d,
          frequency := p.frequency + 1 } :: rest
    else p :: bumpHours rest hour

/-- `learn_from_interaction` (the `PatternLearner.observe` operation): extract
topics from the input, bump each topic counter in order, then update the
hour-of-day histogram. -/
def learn_from_interaction (ps : List Pattern) (text : String) (hour : Nat) : List Pattern :=
  let topics := extractTopics text
  bumpHours (topics.foldl bumpTopic ps) hour

/-- The conversation-type frequency update of `_update_interaction_patterns`:
bump the first `conversation_types` row, or insert one. -/
def updateTypePatterns (ps : List Pattern) (ctype : String) : List Pattern :=
  match ps with
  | [] => [⟨"conversation_types", PatternData.types [(ctype, 1)], 1, 1/2⟩]
  | p :: rest =>
    if p.pattern_type == "conversation_types" then
      { p with
          pattern_data :=
            match p.pattern_data with
            | PatternData.types m =>
                PatternData.types (setAssoc m ctype (getAssoc m ctype + 1))
            | d => d,
          frequency := p.frequency + 1 } :: rest
    else p :: updateTypePatterns rest ctype

/-- The frequency counter of the first `topic_interest` row for a topic
(0 when no such row exists). -/
def topicFrequency (ps : List Pattern) (t : String) : Nat :=
  match ps.find? (fun p =>
      p.pattern_type == "topic_interest" && p.pattern_data == PatternData.topic t) with
  | some p => p.frequency
  | none => 0

/-! ## Conversation log model (`store_conversation`,
`_cache_recent_conversation`, `_get_cached_conversations`,
`get_recent_conversations`) -/

/-- One `Conversation` row / its cached projection.  Timestamps are naturals
(`func.now()` at insert time). -/
structure Conv where
  id : Nat
  user_input : String
  aria_response : String
  conversation_type : String
  tstamp : Nat
deriving Repr, DecidableEq

/-- The state touched by the conversation log: the durable table in insertion
order, the Redis recency list (newest first), the pattern rows, and the id
counter. -/
structure MemState where
  db : List Conv
  cache : List Conv
  patterns : List Pattern
  nextId : Nat
deriving Repr, DecidableEq

/-- Injected outcomes of the fallible calls inside `store_conversation`:
the database commit, the Redis mirror, the pattern update, and whether a
Redis client is connected at all. -/
structure Faults where
  dbOk : Bool
  cacheOk : Bool
  patternOk : Bool
  redisOn : Bool
deriving Repr, DecidableEq

/-- `_cache_recent_conversation`: `lpush` then `ltrim 0 19` (keep the newest
20); any Redis error is caught inside and leaves the cache as it was. -/
def cache_recent_conversation (ok : Bool) (cache : List Conv) (c : Conv) : List Conv :=
  if ok then (c :: cache).take 20 else cache

/-- `_update_interaction_patterns` as called from `store_conversation`; its
internal `except` swallows any failure. -/
def update_interaction_patterns (ok : Bool) (ps : List Pattern) (ctype : String) : List Pattern :=
  if ok then updateTypePatterns ps ctype else ps

/-- `store_conversation`: durable insert and commit; on success, best-effort
cache mirror and pattern update (whose failures are swallowed), returning the
new row id.  If the commit raises, the handler rolls the transaction back and
returns `None`. -/
def store_conversation (f : Faults) (s : MemState)
    (input output ctype : String) (t : Nat) : MemState × Option Nat :=
  if f.dbOk then
    let conv : Conv := ⟨s.nextId, input, output, ctype, t⟩
    ({ db := s.db ++ [conv]
       cache := if f.redisOn then cache_recent_conversation f.cacheOk s.cache conv else s.cache
       patterns := update_interaction_patterns f.patternOk s.patterns ctype
       nextId := s.nextId + 1 }, some s.nextId)
  else (s, none)

/-- `_get_cached_conversations`: `lrange 0 (limit-1)`.  For `limit = 0` the
Python expression is `lrange(key, 0, -1)`, which returns the whole list. -/
def get_cached_conversations (s : MemState) (limit : Nat) : List Conv :=
  if limit = 0 then s.cache else s.cache.take limit

/-- The durable fallback query of `get_recent_conversations`:
`ORDER BY timestamp DESC LIMIT limit` (a stable descending sort). -/
def dbRecent (s : MemState) (limit : Nat) : List Conv :=
  (List.insertionSort (fun a b : Conv => b.tstamp ≤ a.tstamp) s.db).take limit

/-- `get_recent_conversations`: with a Redis client, serve the cached list
whenever it is non-empty; otherwise (or without Redis) run the durable
query. -/
def get_recent_conversations (redisOn : Bool) (s : MemState) (limit : Nat) : List Conv :=
  if redisOn then
    let cached := get_cached_conversations s limit
    if cached.isEmpty then dbRecent s limit else cached
  else dbRecent s limit

/-- All-success faults. -/
def allOk : Faults := ⟨true, true, true, true⟩

/-- The conversation stored by the `i`-th append of the workload below. -/
def mkConv (i : Nat) : Conv := ⟨i, "in", "out", "voice", i⟩

/-- `appendN n`: from the empty state, `n` completed `store_conversation`
calls at strictly increasing timestamps `0, 1, …, n-1`. -/
def appendN : Nat → MemState
  | 0 => ⟨[], [], [], 0⟩
  | n + 1 => (store_conversation allOk (appendN n) "in" "out" "voice" n).1

/-- The `n` workload conversations newest-first: `mkConv (n-1), …, mkConv 0`. -/
def descConvs : Nat → List Conv
  | 0 => []
  | n + 1 => mkConv n :: descConvs n

/-! ## Session model (`_get_current_session`) -/

/-- One `Session` row. -/
structure Sess where
  id : Nat
  user_id : String
  session_start : Nat
  session_end : Option Nat
deriving Repr, DecidableEq

/-- The session table plus an id counter. -/
structure SessState where
  sessions : List Sess
  nextId : Nat
deriving Repr, DecidableEq

/-- `timedelta(hours=4)` in seconds. -/
def sessionWindow : Nat := 4 * 3600

/-- The filter of `_get_current_session`: same user, started within the last
four hours (`session_start >= cutoff_time`), and not ended. -/
def openWithin (uid : String) (now : Nat) (s : Sess) : Bool :=
  s.user_id == uid && decide (now - sessionWindow ≤ s.session_start) && s.session_end.isNone

/-- `_get_current_session` (the `SessionStore.resolve` operation): return the
first open in-window session, else insert and return a fresh one starting
now. -/
def get_current_session (uid : String) (now : Nat) (st : SessState) : SessState × Sess :=
  match st.sessions.find? (openWithin uid now) with
  | some s => (st, s)
  | none =>
    let s : Sess := ⟨st.nextId, uid, now, none⟩
    (⟨st.sessions ++ [s], st.nextId + 1⟩, s)

/-! ## Preference store model (`get_user_context`, `set_user_context`) -/

/-- One `UserContext` row (values kept opaque as strings). -/
structure CtxEntry where
  context_key : String
  context_value : String
  context_type : String
  importance_score : Nat
  access_count : Nat
deriving Repr, DecidableEq

/-- One Redis key set with `setex`: value plus absolute expiry time. -/
structure CacheEntry where
  key : String
  value : String
  expiry : Nat
deriving Repr, DecidableEq

/-- Durable table plus Redis cache. -/
structure PrefState where
  db : List CtxEntry
  cache : List CacheEntry
deriving Repr, DecidableEq

/-- The TTL passed to `setex` (3600 seconds). -/
def cacheTTL : Nat := 3600

/-- Redis `SETEX key ttl value`: overwrite the key with a fresh expiry. -/
def setex (cache : List CacheEntry) (k v : String) (now : Nat) : List CacheEntry :=
  (cache.filter (fun e => !(e.key == k))) ++ [⟨k, v, now + cacheTTL⟩]

/-- Redis `GET`: the value of a live (unexpired) key. -/
def cacheGet (cache : List CacheEntry) (k : String) (now : Nat) : Option String :=
  (cache.find? (fun e => e.key == k && decide (now < e.expiry))).map (fun e => e.value)

/-- The durable upsert inside `set_user_context`: update the first row with
this key in place (bumping its access counter), or append a fresh row. -/
def upsertCtx (k v ctype : String) (imp : Nat) : List CtxEntry → List CtxEntry
  | [] => [⟨k, v, ctype, imp, 0⟩]
  | e :: rest =>
    if e.context_key == k then
      { e with context_value := v, context_type := ctype,
               importance_score := imp, access_count := e.access_count + 1 } :: rest
    else e :: upsertCtx k v ctype imp rest

/-- The access bump inside `get_user_context` on a durable hit. -/
def bumpCtxAccess (k : String) : List CtxEntry → List CtxEntry
  | [] => []
  | e :: rest =>
    if e.context_key == k then { e with access_count := e.access_count + 1 } :: rest
    else e :: bumpCtxAccess k rest

/-- `set_user_context` (the `PreferenceStore.set` operation): durable upsert,
then refresh the cache with the 3600-second TTL; returns `True`. -/
def set_user_context (s : PrefState) (now : Nat) (k v ctype : String) (imp : Nat) :
    PrefState × Bool :=
  ({ db := upsertCtx k v ctype imp s.db, cache := setex s.cache k v now }, true)

/-- `get_user_context` (the `PreferenceStore.get` operation): cache-first;
on a durable hit, bump the access counter and repopulate the cache; an absent
key is the normal result `none`, not an exception. -/
def get_user_context (s : PrefState) (now : Nat) (k : String) : PrefState × Option String :=
  match cacheGet s.cache k now with
  | some v => (s, some v)
  | none =>
    match s.db.find? (fun e => e.context_key == k) with
    | some e =>
      ({ db := bumpCtxAccess k s.db, cache := setex s.cache k e.context_value now },
       some e.context_value)
    | none => (s, none)

/-! ## RAG response model (`bible_rag_service.py`) -/

/-- The canned apology of `_generate_bible_response`'s handler. -/
def apologyGenerate : String :=
  "I apologize, but I\x27m having trouble generating a response right now. Please try again."

/-- The canned apology of `ask_bible_question`'s handler. -/
def apologyAsk : String :=
  "I apologize, but I encountered an error while searching for an answer to your Bible question. Please try again."

/-- `_call_ollama`: the HTTP call to the generation service either yields a
response body or raises; the internal handler turns any failure into the
empty string, so the function itself never raises. -/
def call_ollama (svc : Except String String) : Except String String :=
  match svc with
  | Except.ok body => Except.ok body.trim
  | Except.error _ => Except.ok ""

/-- The quoting-artifact prefixes stripped by `_clean_response`. -/
def patternsToRemove : List String :=
  ["Here\x27s my response:", "My response:", "Response:", "Answer:"]

/-- `_clean_response`: strip, drop a surrounding quote pair, then peel the
known prefixes in order. -/
def clean_response (response : String) : String :=
  if response = "" then ""
  else
    let r := response.trim
    let r := if r.startsWith "\"" && r.endsWith "\"" then (r.drop 1).dropRight 1 else r
    patternsToRemove.foldl
      (fun acc p => if p.isPrefixOf acc then (acc.drop p.length).trim else acc) r

/-- `_generate_bible_response`: clean the generation result, answering with
the canned apology only if the call itself raises. -/
def generate_bible_response (svc : Except String String) : String :=
  match call_ollama svc with
  | Except.ok r => clean_response r
  | Except.error _ => apologyGenerate

/-- `_build_bible_context`. -/
def build_bible_context (question : String) (verses : List SearchResult)
    (commentary : List String) : String :=
  let ctx := "Bible Question: " ++ question ++ "\n\n"
  let ctx :=
    if verses.isEmpty then ctx
    else
      (verses.foldl
        (fun acc v => acc ++ "- " ++ v.reference ++ ": \"" ++ v.text ++ "\"\n")
        (ctx ++ "Relevant Bible Verses:\n")) ++ "\n"
  if commentary.isEmpty then ctx
  else
    (commentary.foldl
      (fun acc c => acc ++ "- " ++ c.take 200 ++ "...\n")
      (ctx ++ "Relevant Commentary:\n")) ++ "\n"

/-- The response dictionary of `ask_bible_question` (the fields the claims
are about). -/
structure BibleAnswer where
  question : String
  answer : String
  sources_count : Nat
deriving Repr, DecidableEq

/-- The success path of `ask_bible_question` after retrieval: build the
context, generate the answer, report the source count. -/
def ask_bible_question (question : String) (verses : List SearchResult)
    (commentary : List String) (svc : Except String String) : BibleAnswer :=
  let _context := build_bible_context question verses commentary
  { question := question
    answer := generate_bible_response svc
    sources_count := verses.length + commentary.length }

/-! ## Concrete states used by the counterexamples -/

/-- The state of the C5 counterexample: two durable conversations but only
the newer one still in the cache. -/
def c5state : MemState :=
  ⟨[⟨0, "a", "ra", "voice", 0⟩, ⟨1, "b", "rb", "voice", 1⟩], [⟨1, "b", "rb", "voice", 1⟩], [], 2⟩

/-- A 101-record corpus, forcing two embedding batches (batch size 100). -/
def c2records : List VerseRecord :=
  List.replicate 101 ⟨"v1", "Genesis", 1, 1, "text", "ref"⟩

/-- The state after a build of `c2records` whose second batch fails. -/
def c2state : VState :=
  (create_verse_embeddings ⟨[]⟩ c2records "BSB" (fun _ => []) (fun i => i == 0)).1

/-- A one-entry collection whose stored vector is far from the query
embedding, driving the distance above 1. -/
def c3state : VState :=
  ⟨[⟨"bible_verses_bsb",
      [⟨"BSB_1", [0], ⟨"John", 3, 16, "John 3:16", "BSB", "For God"⟩,
        "John 3:16: For God"⟩]⟩]⟩

/-! ## Generic `find?` helpers -/

theorem find?_of_imp {α : Type} {p q : α → Bool} {l : List α} {s : α}
    (hpq : ∀ x, q x = true → p x = true) (hfind : l.find? p = some s)
    (hq : q s = true) : l.find? q = some s := by
  induction l with
  | nil => simp at hfind
  | cons a l ih =>
    by_cases hpa : p a = true
    · rw [List.find?_cons_of_pos _ hpa] at hfind
      injection hfind with h
      subst h
      exact List.find?_cons_of_pos _ hq
    · rw [List.find?_cons_of_neg _ hpa] at hfind
      have hqa : ¬ q a = true := fun hqa => hpa (hpq a hqa)
      rw [List.find?_cons_of_neg _ hqa]
      exact ih hfind

theorem find?_none_of_imp {α : Type} {p q : α → Bool} {l : List α}
    (hpq : ∀ x, q x = true → p x = true) (h : l.find? p = none) : l.find? q = none := by
  rw [List.find?_eq_none] at h ⊢
  intro x hx hqx
  exact h x hx (hpq x hqx)

/-! ## C6 — session resolution -/

theorem openWithin_mono {uid : String} {t1 t2 : Nat} (h12 : t1 ≤ t2) (x : Sess)
    (hx : openWithin uid t2 x = true) : openWithin uid t1 x = true := by
  unfold openWithin at hx ⊢
  simp only [Bool.and_eq_true, decide_eq_true_eq] at hx ⊢
  exact ⟨⟨hx.1.1, le_trans (Nat.sub_le_sub_right h12 _) hx.1.2⟩, hx.2⟩

theorem get_current_session_of_find {uid : String} {now : Nat} {st : SessState} {s : Sess}
    (h : st.sessions.find? (openWithin uid now) = some s) :
    get_current_session uid now st = (st, s) := by
  unfold get_current_session
  rw [h]

/-- C6: two `_get_current_session` calls for the same user, the second at a
later time still inside the 4-hour window of the session returned by the
first, return the same session (same row, hence same id) and do not create a
second session. -/
theorem resolve_twice_same_session (uid : String) (t1 t2 : Nat) (st st1 : SessState) (s : Sess)
    (h1 : get_current_session uid t1 st = (st1, s))
    (h12 : t1 ≤ t2)
    (hwin : t2 - sessionWindow ≤ s.session_start) :
    get_current_session uid t2 st1 = (st1, s) := by
  unfold get_current_session at h1
  cases hfind : st.sessions.find? (openWithin uid t1) with
  | some x =>
    rw [hfind] at h1
    injection h1 with hst hs
    subst hst
    subst hs
    have hp : openWithin uid t1 x = true := List.find?_some hfind
    have hq : openWithin uid t2 x = true := by
      unfold openWithin at hp ⊢
      simp only [Bool.and_eq_true, decide_eq_true_eq] at hp ⊢
      exact ⟨⟨hp.1.1, hwin⟩, hp.2⟩
    exact get_current_session_of_find (find?_of_imp (fun x => openWithin_mono h12 x) hfind hq)
  | none =>
    rw [hfind] at h1
    injection h1 with hst hs
    subst hst
    subst hs
    have hnone2 : st.sessions.find? (openWithin uid t2) = none :=
      find?_none_of_imp (fun x => openWithin_mono h12 x) hfind
    have hnew : openWithin uid t2 (⟨st.nextId, uid, t1, none⟩ : Sess) = true := by
      unfold openWithin
      simp only [Bool.and_eq_true, beq_self_eq_true, decide_eq_true_eq, Option.isNone_none,
        and_true, true_and]
      exact hwin
    apply get_current_session_of_find
    show (st.sessions ++ [(⟨st.nextId, uid, t1, none⟩ : Sess)]).find? (openWithin uid t2) = _
    rw [List.find?_append, hnone2, Option.none_or]
    exact List.find?_cons_of_pos _ hnew

/-- C6 witness: a fresh user resolves at time 100 to a new session; resolving
again at time 200 returns the same session and leaves the store unchanged. -/
theorem resolve_twice_witness :
    get_current_session "default_user" 200 ⟨[⟨0, "default_user", 100, none⟩], 1⟩
      = (⟨[⟨0, "default_user", 100, none⟩], 1⟩, ⟨0, "default_user", 100, none⟩) :=
  resolve_twice_same_session "default_user" 100 200 ⟨[], 0⟩
    ⟨[⟨0, "default_user", 100, none⟩], 1⟩ ⟨0, "default_user", 100, none⟩
    (by decide) (by norm_num) (by decide)

/-! ## C7 — preference store -/

theorem cacheGet_setex_same (cache : List CacheEntry) (k v : String) (now : Nat) :
    cacheGet (setex cache k v now) k now = some v := by
  unfold cacheGet setex
  rw [List.find?_append]
  have h1 : (cache.filter (fun e => !(e.key == k))).find?
      (fun e => e.key == k && decide (now < e.expiry)) = none := by
    rw [List.find?_eq_none]
    intro x hx
    have hxk := (List.mem_filter.mp hx).2
    simp only [Bool.not_eq_eq_eq_not, Bool.not_true] at hxk
    simp [hxk]
  rw [h1, Option.none_or]
  have h2 : ((⟨k, v, now + cacheTTL⟩ : CacheEntry).key == k
      && decide (now < (⟨k, v, now + cacheTTL⟩ : CacheEntry).expiry)) = true := by
    simp only [beq_self_eq_true, Bool.true_and, decide_eq_true_eq, cacheTTL]
    omega
  have h3 : List.find? (fun e => e.key == k && decide (now < e.expiry))
      [(⟨k, v, now + cacheTTL⟩ : CacheEntry)] = some ⟨k, v, now + cacheTTL⟩ :=
    List.find?_cons_of_pos _ h2
  rw [h3]
  rfl

theorem cacheGet_none_of_absent (cache : List CacheEntry) (k : String) (now : Nat)
    (h : ∀ e ∈ cache, e.key ≠ k) : cacheGet cache k now = none := by
  unfold cacheGet
  rw [List.find?_eq_none.mpr]
  · rfl
  · intro x hx hcond
    simp only [Bool.and_eq_true, beq_iff_eq] at hcond
    exact h x hx hcond.1

theorem setex_keys (cache : List CacheEntry) (k v : String) (now : Nat) (e : CacheEntry)
    (he : e ∈ setex cache k v now) : e ∈ cache ∨ e.key = k := by
  unfold setex at he
  rcases List.mem_append.mp he with h | h
  · exact Or.inl (List.mem_filter.mp h).1
  · simp only [List.mem_singleton] at h
    subst h
    exact Or.inr rfl

theorem upsertCtx_find_none (k2 k v ctype : String) (imp : Nat) (db : List CtxEntry)
    (hk : k2 ≠ k) (h : ∀ e ∈ db, e.context_key ≠ k2) :
    (upsertCtx k v ctype imp db).find? (fun e => e.context_key == k2) = none := by
  induction db with
  | nil =>
    unfold upsertCtx
    rw [List.find?_eq_none]
    intro x hx
    simp only [List.mem_singleton] at hx
    subst hx
    simp only [beq_iff_eq]
    exact fun hc => hk (hc.symm)
  | cons e rest ih =>
    unfold upsertCtx
    by_cases hc : (e.context_key == k) = true
    · rw [if_pos hc, List.find?_eq_none]
      intro x hx
      rcases List.mem_cons.mp hx with rfl | hx
      · simp only [beq_iff_eq]
        exact h e (List.mem_cons_self _ _)
      · simp only [beq_iff_eq]
        exact h x (List.mem_cons_of_mem e hx)
    · rw [if_neg hc, List.find?_eq_none]
      intro x hx
      rcases List.mem_cons.mp hx with rfl | hx
      · simp only [beq_iff_eq]
        exact h x (List.mem_cons_self _ _)
      · have hrest := ih (fun y hy => h y (List.mem_cons_of_mem e hy))
        rw [List.find?_eq_none] at hrest
        exact hrest x hx

/-- C7: after `set_user_context(k, v)`, `get_user_context(k)` returns `v`
(served from the freshly set cache entry, whose TTL has not elapsed); and
`get_user_context(k2)` for a key never stored in cache or table returns
`none` — an ordinary value, not an exception. -/
theorem set_then_get_preference (s : PrefState) (now : Nat) (k v ctype k2 : String) (imp : Nat)
    (hc : ∀ e ∈ s.cache, e.key ≠ k2) (hd : ∀ e ∈ s.db, e.context_key ≠ k2) (hk : k2 ≠ k) :
    (get_user_context ((set_user_context s now k v ctype imp).1) now k).2 = some v
    ∧ (get_user_context ((set_user_context s now k v ctype imp).1) now k2).2 = none := by
  constructor
  · unfold get_user_context set_user_context
    rw [cacheGet_setex_same]
  · unfold get_user_context set_user_context
    have h1 : cacheGet (setex s.cache k v now) k2 now = none := by
      apply cacheGet_none_of_absent
      intro e he
      rcases setex_keys s.cache k v now e he with hmem | hkey
      · exact hc e hmem
      · rw [hkey]
        exact fun hc2 => hk hc2.symm
    rw [h1]
    rw [upsertCtx_find_none k2 k v ctype imp s.db hk hd]

/-- C7 witness: on the empty store at time 0, setting `wake_word := aria`
then reading it back yields `aria`, and reading the never-set key `unknown`
yields `none`. -/
theorem set_then_get_preference_witness :
    (get_user_context ((set_user_context ⟨[], []⟩ 0 "wake_word" "aria" "preference" 5).1)
      0 "wake_word").2 = some "aria"
    ∧ (get_user_context ((set_user_context ⟨[], []⟩ 0 "wake_word" "aria" "preference" 5).1)
      0 "unknown").2 = none :=
  set_then_get_preference ⟨[], []⟩ 0 "wake_word" "aria" "preference" "unknown" 5
    (by intro e he; cases he) (by intro e he; cases he) (by decide)

/-! ## C5 — cache-first recency reads -/

theorem get_recent_eq_cached {s : MemState} {limit : Nat}
    (h : get_cached_conversations s limit ≠ []) :
    get_recent_conversations true s limit = get_cached_conversations s limit := by
  unfold get_recent_conversations
  have hemp : (get_cached_conversations s limit).isEmpty = false := by
    cases hemp : (get_cached_conversations s limit).isEmpty
    · rfl
    · exact absurd (List.isEmpty_iff.mp hemp) h
  simp [hemp]

theorem get_recent_eq_db {s : MemState} {limit : Nat}
    (h : get_cached_conversations s limit = []) :
    get_recent_conversations true s limit = dbRecent s limit := by
  unfold get_recent_conversations
  simp [h]

/-- C5 (amended): `get_recent_conversations` serves the cached list whenever
it is non-empty — even when it holds fewer than `limit` entries — and runs
the ordered durable query exactly when the cached read comes back empty. -/
theorem recent_serves_cache_when_nonempty (s : MemState) (limit : Nat) :
    (get_cached_conversations s limit ≠ [] →
      get_recent_conversations true s limit = get_cached_conversations s limit)
    ∧ (get_cached_conversations s limit = [] →
      get_recent_conversations true s limit = dbRecent s limit) :=
  ⟨fun h => get_recent_eq_cached h, fun h => get_recent_eq_db h⟩

/-- C5 witness: with one cached conversation and limit 1, the cached list is
served. -/
theorem recent_serves_cache_witness :
    get_recent_conversations true ⟨[⟨0, "a", "b", "voice", 0⟩], [⟨0, "a", "b", "voice", 0⟩], [], 1⟩ 1
      = get_cached_conversations ⟨[⟨0, "a", "b", "voice", 0⟩], [⟨0, "a", "b", "voice", 0⟩], [], 1⟩ 1 :=
  (recent_serves_cache_when_nonempty _ 1).1 (by decide)

/-- C5 counterexample: the cache holds 1 entry, fewer than the requested
limit 2, yet `get_recent_conversations` serves the 1-entry cached list
instead of the 2-entry durable query — refuting the claim that an
insufficient cache always falls back to the durable store. -/
theorem recent_insufficient_cache_counterexample :
    get_recent_conversations true c5state 2 = [⟨1, "b", "rb", "voice", 1⟩]
    ∧ (get_recent_conversations true c5state 2).length = 1
    ∧ (dbRecent c5state 2).length = 2
    ∧ get_recent_conversations true c5state 2 ≠ dbRecent c5state 2 := by
  refine ⟨by decide, by decide, by decide, by decide⟩

/-! ## C10 — store_conversation never raises -/

/-- C10: `store_conversation` always returns normally: it yields a
conversation id exactly when the durable commit succeeds — in particular it
still returns the id when the cache mirror and the pattern update both
fail — and on a failed commit it rolls back, leaving the state unchanged and
returning `none` instead of raising. -/
theorem store_conversation_never_raises (f : Faults) (s : MemState)
    (input output ctype : String) (t : Nat) :
    (((store_conversation f s input output ctype t).2).isSome ↔ f.dbOk = true)
    ∧ (f.dbOk = true → (store_conversation f s input output ctype t).2 = some s.nextId)
    ∧ (f.dbOk = false → store_conversation f s input output ctype t = (s, none)) := by
  cases hf : f.dbOk <;> simp [store_conversation, hf]

/-- C10 witness: with a failing cache mirror and failing pattern update the
id is still returned; with a failing commit the state is returned unchanged
with `none`. -/
theorem store_conversation_witness :
    (store_conversation ⟨true, false, false, true⟩ ⟨[], [], [], 0⟩ "hi" "yo" "voice" 5).2 = some 0
    ∧ store_conversation ⟨false, true, true, true⟩ ⟨[], [], [], 0⟩ "hi" "yo" "voice" 5
      = (⟨[], [], [], 0⟩, none) :=
  ⟨(store_conversation_never_raises ⟨true, false, false, true⟩ ⟨[], [], [], 0⟩
      "hi" "yo" "voice" 5).2.1 rfl,
   (store_conversation_never_raises ⟨false, true, true, true⟩ ⟨[], [], [], 0⟩
      "hi" "yo" "voice" 5).2.2 rfl⟩

/-! ## C9 — failed generation calls -/

/-- C9 (amended): a failed generation-service call never propagates an error
out of the answer pipeline, but the resulting answer is the empty string —
`_call_ollama` swallows the failure and returns `""` — not the canned
apology, which is produced only when an exception reaches the surrounding
handlers. -/
theorem generation_failure_yields_empty_answer (question : String) (verses : List SearchResult)
    (commentary : List String) (err : String) :
    (ask_bible_question question verses commentary (Except.error err)).answer = ""
    ∧ generate_bible_response (Except.error err) = "" := by
  constructor <;>
    simp [ask_bible_question, generate_bible_response, call_ollama, clean_response]

/-- C9 counterexample: on a concrete failing generation call the answer is
the empty string, which is neither of the canned apology texts — refuting
the claim that a failed generation call yields a canned apology as the
answer. -/
theorem generation_failure_not_apology :
    (ask_bible_question "What does the Bible say about love?" [] []
        (Except.error "connection refused")).answer = ""
    ∧ (ask_bible_question "What does the Bible say about love?" [] []
        (Except.error "connection refused")).answer ≠ apologyGenerate
    ∧ (ask_bible_question "What does the Bible say about love?" [] []
        (Except.error "connection refused")).answer ≠ apologyAsk := by
  refine ⟨by decide, by decide, by decide⟩

/-! ## C8 — pattern learner -/

theorem topicFrequency_bumpTopic_same (ps : List Pattern) (t : String) :
    topicFrequency (bumpTopic ps t) t = topicFrequency ps t + 1 := by
  induction ps with
  | nil => simp [bumpTopic, topicFrequency, List.find?_cons]
  | cons p rest ih =>
    unfold bumpTopic
    by_cases hc :
        (p.pattern_type == "topic_interest" && p.pattern_data == PatternData.topic t) = true
    · rw [if_pos hc]
      simp only [topicFrequency, List.find?_cons, hc]
    · rw [if_neg hc]
      simp only [Bool.not_eq_true] at hc
      simp only [topicFrequency, List.find?_cons, hc]
      simpa only [topicFrequency] using ih

theorem topicFrequency_bumpTopic_ne (ps : List Pattern) (t t2 : String) (hne : t ≠ t2) :
    topicFrequency (bumpTopic ps t2) t = topicFrequency ps t := by
  induction ps with
  | nil => simp [bumpTopic, topicFrequency, List.find?_cons, Ne.symm hne]
  | cons p rest ih =>
    unfold bumpTopic
    by_cases hc :
        (p.pattern_type == "topic_interest" && p.pattern_data == PatternData.topic t2) = true
    · rw [if_pos hc]
      simp only [Bool.and_eq_true, beq_iff_eq] at hc
      have hcf :
          (p.pattern_type == "topic_interest" && p.pattern_data == PatternData.topic t) = false := by
        rw [hc.2]
        simp [Ne.symm hne]
      simp only [topicFrequency, List.find?_cons, hcf]
    · rw [if_neg hc]
      by_cases hct :
          (p.pattern_type == "topic_interest" && p.pattern_data == PatternData.topic t) = true
      · simp only [topicFrequency, List.find?_cons, hct]
      · simp only [Bool.not_eq_true] at hct
        simp only [topicFrequency, List.find?_cons, hct]
        simpa only [topicFrequency] using ih

theorem topicFrequency_bumpHours (ps : List Pattern) (hour : Nat) (t : String) :
    topicFrequency (bumpHours ps hour) t = topicFrequency ps t := by
  have hstr : (("active_hours" : String) == "topic_interest") = false := by decide
  induction ps with
  | nil => simp [bumpHours, topicFrequency, List.find?_cons, hstr]
  | cons p rest ih =>
    unfold bumpHours
    by_cases hp : (p.pattern_type == "active_hours") = true
    · rw [if_pos hp]
      have hpt : p.pattern_type = "active_hours" := by simpa using hp
      simp only [topicFrequency, List.find?_cons, hpt, hstr, Bool.false_and]
    · rw [if_neg hp]
      by_cases hct :
          (p.pattern_type == "topic_interest" && p.pattern_data == PatternData.topic t) = true
      · simp only [topicFrequency, List.find?_cons, hct]
      · simp only [Bool.not_eq_true] at hct
        simp only [topicFrequency, List.find?_cons, hct]
        simpa only [topicFrequency] using ih

/-- C8: observing `"what time is it?"` increments the `time` and `question`
topic counters by exactly one each and leaves the `weather` counter — and
every other topic counter besides `time` and `question` — unchanged, for
every prior pattern state and hour of day. -/
theorem observe_time_question_increment (ps : List Pattern) (hour : Nat) :
    topicFrequency (learn_from_interaction ps "what time is it?" hour) "time"
      = topicFrequency ps "time" + 1
    ∧ topicFrequency (learn_from_interaction ps "what time is it?" hour) "question"
      = topicFrequency ps "question" + 1
    ∧ topicFrequency (learn_from_interaction ps "what time is it?" hour) "weather"
      = topicFrequency ps "weather"
    ∧ ∀ t : String, t ≠ "time" → t ≠ "question" →
        topicFrequency (learn_from_interaction ps "what time is it?" hour) t
          = topicFrequency ps t := by
  have htop : extractTopics "what time is it?" = ["time", "question"] := by decide
  unfold learn_from_interaction
  rw [htop]
  simp only [List.foldl_cons, List.foldl_nil]
  refine ⟨?_, ?_, ?_, ?_⟩
  · rw [topicFrequency_bumpHours, topicFrequency_bumpTopic_ne _ _ _ (by decide),
      topicFrequency_bumpTopic_same]
  · rw [topicFrequency_bumpHours, topicFrequency_bumpTopic_same,
      topicFrequency_bumpTopic_ne _ _ _ (by decide)]
  · rw [topicFrequency_bumpHours, topicFrequency_bumpTopic_ne _ _ _ (by decide),
      topicFrequency_bumpTopic_ne _ _ _ (by decide)]
  · intro t ht hq
    rw [topicFrequency_bumpHours, topicFrequency_bumpTopic_ne _ _ _ hq,
      topicFrequency_bumpTopic_ne _ _ _ ht]

/-- C8 witness: on the empty pattern state at hour 0, the `time` counter goes
from 0 to 1 and the `music` counter (a topic other than `time`/`question`)
stays 0. -/
theorem observe_time_question_increment_witness :
    topicFrequency (learn_from_interaction [] "what time is it?" 0) "time"
      = topicFrequency ([] : List Pattern) "time" + 1
    ∧ topicFrequency (learn_from_interaction [] "what time is it?" 0) "music"
      = topicFrequency ([] : List Pattern) "music" :=
  ⟨(observe_time_question_increment [] 0).1,
   (observe_time_question_increment [] 0).2.2.2 "music" (by decide) (by decide)⟩

/-! ## C4 — recency after N appends -/

theorem take20_cons (a : Conv) (l : List Conv) :
    (a :: l.take 20).take 20 = (a :: l).take 20 := by
  rw [show (20 : Nat) = 19 + 1 from rfl, List.take_succ_cons, List.take_succ_cons,
    List.take_take]
  norm_num

theorem descConvs_length (n : Nat) : (descConvs n).length = n := by
  induction n with
  | zero => rfl
  | succ m ih => simp [descConvs, ih]

theorem descConvs_tstamp_lt (n : Nat) : ∀ c ∈ descConvs n, c.tstamp < n := by
  induction n with
  | zero => intro c hc; cases hc
  | succ m ih =>
    intro c hc
    rcases List.mem_cons.mp hc with rfl | hc
    · exact Nat.lt_succ_self m
    · exact Nat.lt_succ_of_lt (ih c hc)

theorem descConvs_sorted (n : Nat) :
    List.Pairwise (fun a b => b.tstamp ≤ a.tstamp) (descConvs n) := by
  induction n with
  | zero => exact List.Pairwise.nil
  | succ m ih =>
    refine List.Pairwise.cons ?_ ih
    intro b hb
    exact Nat.le_of_lt (descConvs_tstamp_lt m b hb)

theorem appendN_state (n : Nat) :
    (appendN n).nextId = n ∧ (appendN n).cache = (descConvs n).take 20 := by
  have hstep : ∀ (s : MemState) (t : Nat), store_conversation allOk s "in" "out" "voice" t
      = ({ db := s.db ++ [⟨s.nextId, "in", "out", "voice", t⟩],
           cache := ((⟨s.nextId, "in", "out", "voice", t⟩ : Conv) :: s.cache).take 20,
           patterns := updateTypePatterns s.patterns "voice",
           nextId := s.nextId + 1 }, some s.nextId) := fun s t => rfl
  induction n with
  | zero => exact ⟨rfl, rfl⟩
  | succ m ih =>
    unfold appendN
    rw [hstep]
    refine ⟨?_, ?_⟩
    · show (appendN m).nextId + 1 = m + 1
      rw [ih.1]
    · show ((⟨(appendN m).nextId, "in", "out", "voice", m⟩ : Conv) :: (appendN m).cache).take 20
        = (descConvs (m + 1)).take 20
      rw [ih.1, ih.2]
      rw [show (⟨m, "in", "out", "voice", m⟩ : Conv) = mkConv m from rfl, take20_cons]
      rfl

/-- C4 (amended): after `N` completed appends with strictly increasing
creation times, `recent(N)` returns exactly `N` entries ordered by
non-increasing creation time whenever `N ≤ 20`, the capacity of the bounded
recency cache; for larger `N` the cache serves only the 20 newest entries
(see the counterexample). -/
theorem recent_after_appendN (N : Nat) (hN : N ≤ 20) :
    (get_recent_conversations true (appendN N) N).length = N
    ∧ List.Pairwise (fun a b => b.tstamp ≤ a.tstamp)
        (get_recent_conversations true (appendN N) N) := by
  obtain ⟨hid, hcache⟩ := appendN_state N
  match N, hN, hcache with
  | 0, _, _ => exact ⟨rfl, List.Pairwise.nil⟩
  | (m + 1), hN, hcache =>
    have hlen : (descConvs (m + 1)).length = m + 1 := descConvs_length _
    have hcached : get_cached_conversations (appendN (m + 1)) (m + 1) = descConvs (m + 1) := by
      unfold get_cached_conversations
      rw [if_neg (Nat.succ_ne_zero m), hcache, List.take_take,
        min_eq_left hN, List.take_of_length_le (le_of_eq hlen)]
    have hne : descConvs (m + 1) ≠ [] := by simp [descConvs]
    rw [get_recent_eq_cached (by rw [hcached]; exact hne), hcached]
    exact ⟨hlen, descConvs_sorted _⟩

/-- C4 witness: three completed appends, then `recent(3)` returns exactly 3
entries in non-increasing creation order. -/
theorem recent_after_appendN_witness :
    (get_recent_conversations true (appendN 3) 3).length = 3
    ∧ List.Pairwise (fun a b => b.tstamp ≤ a.tstamp)
        (get_recent_conversations true (appendN 3) 3) :=
  recent_after_appendN 3 (by norm_num)

/-- C4 counterexample: after 21 completed appends, `recent(21)` serves the
bounded cache and returns only 20 entries, not 21 — refuting "exactly N
entries" for every N. -/
theorem recent_after_21_appends_counterexample :
    (get_recent_conversations true (appendN 21) 21).length = 20 ∧ (20 : Nat) ≠ 21 := by
  obtain ⟨hid, hcache⟩ := appendN_state 21
  have hlen : (descConvs 21).length = 21 := descConvs_length _
  have hcached : get_cached_conversations (appendN 21) 21 = (descConvs 21).take 20 := by
    unfold get_cached_conversations
    rw [if_neg (by norm_num : (21 : Nat) ≠ 0), hcache, List.take_take,
      show ((21 : Nat) ⊓ 20) = 20 from by decide]
  have hne : (descConvs 21).take 20 ≠ [] := by
    intro h
    have hlt := congrArg List.length h
    rw [List.length_take, hlen, show ((20 : Nat) ⊓ 21) = 20 from by decide] at hlt
    exact absurd hlt (by norm_num)
  constructor
  · rw [get_recent_eq_cached (by rw [hcached]; exact hne), hcached, List.length_take, hlen]
    decide
  · norm_num

/-! ## C1/C2 — idempotent, complete index construction -/

theorem hasCollection_getOrCreate (s : VState) (n : String) :
    hasCollection (getOrCreate s n) n = true := by
  unfold getOrCreate
  by_cases h : hasCollection s n = true
  · rw [if_pos h]
    exact h
  · rw [if_neg h]
    unfold hasCollection
    rw [List.any_append]
    simp

theorem any_name_map_update (cs : List VCollection) (n : String) (l : List VEntry) (m : String) :
    (cs.map (fun c => if c.name == n then { c with entries := c.entries ++ l } else c)).any
      (fun c => c.name == m) = cs.any (fun c => c.name == m) := by
  induction cs with
  | nil => rfl
  | cons c cs ih =>
    simp only [List.map_cons, List.any_cons]
    rw [ih]
    congr 1
    by_cases hc : (c.name == n) = true
    · rw [if_pos hc]
    · rw [if_neg hc]

theorem hasCollection_addToCollection (s : VState) (n : String) (l : List VEntry) (m : String) :
    hasCollection (addToCollection s n l) m = hasCollection s m :=
  any_name_map_update s.collections n l m

theorem addToCollection_append (s : VState) (n : String) (a b : List VEntry) :
    addToCollection (addToCollection s n a) n b = addToCollection s n (a ++ b) := by
  unfold addToCollection
  simp only [List.map_map]
  congr 1
  apply List.map_congr_left
  intro c _
  by_cases hc : (c.name == n) = true
  · simp [Function.comp, hc, List.append_assoc]
  · simp only [Bool.not_eq_true] at hc
    simp [Function.comp, hc]

theorem addToCollection_nil (s : VState) (n : String) : addToCollection s n [] = s := by
  unfold addToCollection
  have h : s.collections.map
      (fun c => if c.name == n then { c with entries := c.entries ++ ([] : List VEntry) } else c)
      = s.collections := by
    apply List.map_congr_left ?_ |>.trans (List.map_id _)
    intro c _
    by_cases hc : (c.name == n) = true
    · rw [if_pos hc, List.append_nil]
      rfl
    · rw [if_neg hc]
      rfl
  rw [h]

theorem addVerseBatches_all_ok (name : String) (ok : Nat → Bool) (hok : ∀ i, ok i = true) :
    ∀ (fuel : Nat) (pending : List VEntry), pending.length ≤ fuel → ∀ (s : VState) (b : Nat),
      addVerseBatches s name pending b ok = (addToCollection s name pending, true) := by
  intro fuel
  induction fuel with
  | zero =>
    intro pending hp s b
    have hnil : pending = [] := List.length_eq_zero.mp (Nat.le_zero.mp hp)
    subst hnil
    simp [addVerseBatches, addToCollection_nil]
  | succ m ih =>
    intro pending hp s b
    match pending with
    | [] => simp [addVerseBatches, addToCollection_nil]
    | e :: rest =>
      rw [addVerseBatches, hok b, if_pos rfl]
      have hlen : ((e :: rest).drop 100).length ≤ m := by
        rw [List.length_drop]
        have h1 : (e :: rest).length - 100 ≤ (e :: rest).length - 1 :=
          Nat.sub_le_sub_left (by norm_num) _
        have h2 : (e :: rest).length - 1 = rest.length := by simp
        have h3 : rest.length ≤ m := by
          have := hp
          simp only [List.length_cons] at this
          omega
        omega
      rw [ih _ hlen, addToCollection_append, List.take_append_drop]

theorem map_update_of_not_name (cs : List VCollection) (n : String) (l : List VEntry)
    (h : cs.any (fun c => c.name == n) = false) :
    cs.map (fun c => if c.name == n then { c with entries := c.entries ++ l } else c) = cs := by
  induction cs with
  | nil => rfl
  | cons c cs ih =>
    rw [List.any_cons, Bool.or_eq_false_iff] at h
    have hcf : ¬ (c.name == n) = true := by
      rw [h.1]
      exact Bool.false_ne_true
    simp only [List.map_cons, if_neg hcf, ih h.2]

theorem create_all_ok (s : VState) (records : List VerseRecord) (translation : String)
    (embed : String → List ℚ) (ok : Nat → Bool)
    (habs : hasCollection s (verseCollName translation) = false)
    (hok : ∀ i, ok i = true) :
    create_verse_embeddings s records translation embed ok
      = (⟨s.collections
          ++ [⟨verseCollName translation, records.map (verseEntry embed translation)⟩]⟩, true) := by
  have hcf : ¬ hasCollection s (verseCollName translation) = true := by
    rw [habs]
    exact Bool.false_ne_true
  unfold create_verse_embeddings
  rw [addVerseBatches_all_ok _ _ hok (records.map (verseEntry embed translation)).length _
    le_rfl]
  unfold getOrCreate
  rw [if_neg hcf]
  unfold addToCollection
  simp only [List.map_append, map_update_of_not_name s.collections _ _ habs, List.map_cons,
    List.map_nil, beq_self_eq_true, if_pos rfl, List.nil_append]
  simp

theorem filter_name_nil (cs : List VCollection) (n : String)
    (h : cs.any (fun c => c.name == n) = false) :
    cs.filter (fun c => c.name == n) = [] := by
  rw [List.filter_eq_nil_iff]
  intro a ha hc
  rw [List.any_eq_false] at h
  exact h a ha hc

theorem ensure_of_present (s : VState) (records : List VerseRecord) (translation : String)
    (embed : String → List ℚ) (ok : Nat → Bool)
    (h : hasCollection s (verseCollName translation) = true) :
    ensureVerseEmbeddings s records translation embed ok = s := by
  unfold ensureVerseEmbeddings
  rw [if_pos h]

/-- C1: starting from a state without collection C, two sequential
`ensureBuilt(C)` calls: the second call finds the collection present and
changes nothing (whatever its batch outcomes would be), the state contains
exactly one collection named C, fully populated with one entry per corpus
record in order, and distinct corpus ids give distinct stored ids. -/
theorem ensure_built_twice (s : VState) (records : List VerseRecord) (translation : String)
    (embed : String → List ℚ) (ok ok2 : Nat → Bool)
    (habs : hasCollection s (verseCollName translation) = false)
    (hok : ∀ i, ok i = true)
    (hids : (records.map VerseRecord.verseId).Nodup) :
    ensureVerseEmbeddings (ensureVerseEmbeddings s records translation embed ok)
        records translation embed ok2
      = ensureVerseEmbeddings s records translation embed ok
    ∧ collsNamed (ensureVerseEmbeddings s records translation embed ok)
        (verseCollName translation)
      = [⟨verseCollName translation, records.map (verseEntry embed translation)⟩]
    ∧ ((records.map (verseEntry embed translation)).map VEntry.id).Nodup := by
  have hcf : ¬ hasCollection s (verseCollName translation) = true := by
    rw [habs]
    exact Bool.false_ne_true
  have h1 : ensureVerseEmbeddings s records translation embed ok
      = VState.mk (s.collections
          ++ [⟨verseCollName translation, records.map (verseEntry embed translation)⟩]) := by
    unfold ensureVerseEmbeddings
    rw [if_neg hcf, create_all_ok s records translation embed ok habs hok]
  have hpresent : hasCollection
      (VState.mk (s.collections
        ++ [⟨verseCollName translation, records.map (verseEntry embed translation)⟩]))
      (verseCollName translation) = true := by
    unfold hasCollection
    rw [List.any_append]
    simp
  refine ⟨?_, ?_, ?_⟩
  · rw [h1]
    exact ensure_of_present _ records translation embed ok2 hpresent
  · rw [h1]
    unfold collsNamed
    show (s.collections ++ _).filter _ = _
    rw [List.filter_append, filter_name_nil s.collections _ habs]
    simp
  · have hmm : (records.map (verseEntry embed translation)).map VEntry.id
        = (records.map VerseRecord.verseId).map (fun v => (translation ++ "_") ++ v) := by
      simp only [List.map_map]
      rfl
    rw [hmm]
    apply List.Nodup.map ?_ hids
    intro a b hab
    apply String.ext
    have hd := congrArg String.data hab
    rw [String.data_append, String.data_append] at hd
    exact List.append_cancel_left hd

/-- C1 witness: building a one-record corpus twice from the empty client —
the second call is a no-op. -/
theorem ensure_built_twice_witness :
    ensureVerseEmbeddings
        (ensureVerseEmbeddings ⟨[]⟩ [⟨"1", "Genesis", 1, 1, "In the beginning", "Genesis 1:1"⟩]
          "BSB" (fun _ => []) (fun _ => true))
        [⟨"1", "Genesis", 1, 1, "In the beginning", "Genesis 1:1"⟩]
        "BSB" (fun _ => []) (fun _ => true)
      = ensureVerseEmbeddings ⟨[]⟩ [⟨"1", "Genesis", 1, 1, "In the beginning", "Genesis 1:1"⟩]
          "BSB" (fun _ => []) (fun _ => true) :=
  (ensure_built_twice ⟨[]⟩ [⟨"1", "Genesis", 1, 1, "In the beginning", "Genesis 1:1"⟩]
    "BSB" (fun _ => []) (fun _ => true) (fun _ => true) rfl (fun _ => rfl) (by decide)).1

/-- C2 (amended): a build in which every batch insert succeeds leaves the
collection fully populated — one entry per corpus record — and any state in
which the collection merely exists is treated as ready by
`_ensure_embeddings_exist`, which performs no further inserts.  The claimed
invariant "fully populated or absent" itself fails on an interrupted build:
see the counterexample. -/
theorem build_complete_or_untouched (s : VState) (records : List VerseRecord)
    (translation : String) (embed : String → List ℚ) (ok : Nat → Bool)
    (habs : hasCollection s (verseCollName translation) = false)
    (hok : ∀ i, ok i = true) :
    collsNamed (create_verse_embeddings s records translation embed ok).1
        (verseCollName translation)
      = [⟨verseCollName translation, records.map (verseEntry embed translation)⟩]
    ∧ ∀ (s2 : VState) (records2 : List VerseRecord) (embed2 : String → List ℚ)
        (ok2 : Nat → Bool), hasCollection s2 (verseCollName translation) = true →
        ensureVerseEmbeddings s2 records2 translation embed2 ok2 = s2 := by
  constructor
  · rw [create_all_ok s records translation embed ok habs hok]
    unfold collsNamed
    show (s.collections ++ _).filter _ = _
    rw [List.filter_append, filter_name_nil s.collections _ habs]
    simp
  · intro s2 records2 embed2 ok2 h2
    exact ensure_of_present s2 records2 translation embed2 ok2 h2

/-- C2 witness: a successful one-record build from the empty client leaves
exactly one fully populated collection. -/
theorem build_complete_or_untouched_witness :
    collsNamed (create_verse_embeddings ⟨[]⟩ [⟨"1", "Genesis", 1, 1, "t", "r"⟩] "BSB"
        (fun _ => []) (fun _ => true)).1 (verseCollName "BSB")
      = [⟨verseCollName "BSB",
          [⟨"1", "Genesis", 1, 1, "t", "r"⟩].map (verseEntry (fun _ => []) "BSB")⟩] :=
  (build_complete_or_untouched ⟨[]⟩ [⟨"1", "Genesis", 1, 1, "t", "r"⟩] "BSB" (fun _ => [])
    (fun _ => true) rfl (fun _ => rfl)).1

theorem addVerseBatches_fail_second (s : VState) (name : String) (pending : List VEntry)
    (ok : Nat → Bool) (h0 : ok 0 = true) (h1 : ok 1 = false)
    (hne : pending ≠ []) (hne2 : pending.drop 100 ≠ []) :
    addVerseBatches s name pending 0 ok = (addToCollection s name (pending.take 100), false) := by
  obtain ⟨e, rest, rfl⟩ := List.exists_cons_of_ne_nil hne
  rw [addVerseBatches, h0, if_pos rfl]
  obtain ⟨e2, rest2, hq⟩ := List.exists_cons_of_ne_nil hne2
  rw [hq, addVerseBatches, h1]
  simp

/-- C2 counterexample: a 101-record build whose second batch fails returns
`False` but leaves the collection present with only 100 of the 101 entries,
and a subsequent `_ensure_embeddings_exist` treats it as ready and performs
no inserts — a partially populated collection is reachable and exposed as
ready, refuting "fully populated or absent". -/
theorem partial_build_exposed_counterexample :
    (create_verse_embeddings ⟨[]⟩ c2records "BSB" (fun _ => []) (fun i => i == 0)).2 = false
    ∧ hasCollection c2state "bible_verses_bsb" = true
    ∧ (entriesOf c2state "bible_verses_bsb").length = 100
    ∧ c2records.length = 101
    ∧ ensureVerseEmbeddings c2state c2records "BSB" (fun _ => []) (fun _ => true) = c2state := by
  have hnm : verseCollName "BSB" = "bible_verses_bsb" := by decide
  have hlen : (c2records.map (verseEntry (fun _ => []) "BSB")).length = 101 := by
    simp [c2records]
  have hne : c2records.map (verseEntry (fun _ => []) "BSB") ≠ [] := by
    intro h
    rw [h] at hlen
    simp at hlen
  have hne2 : (c2records.map (verseEntry (fun _ => []) "BSB")).drop 100 ≠ [] := by
    intro h
    rw [List.drop_eq_nil_iff] at h
    rw [hlen] at h
    omega
  have hstep : create_verse_embeddings ⟨[]⟩ c2records "BSB" (fun _ => []) (fun i => i == 0)
      = (addToCollection (getOrCreate ⟨[]⟩ (verseCollName "BSB")) (verseCollName "BSB")
          ((c2records.map (verseEntry (fun _ => []) "BSB")).take 100), false) := by
    unfold create_verse_embeddings
    exact addVerseBatches_fail_second _ _ _ _ rfl rfl hne hne2
  have hgoc : getOrCreate ⟨[]⟩ (verseCollName "BSB") = ⟨[⟨verseCollName "BSB", []⟩]⟩ := rfl
  have hadd : ∀ X : List VEntry,
      addToCollection ⟨[⟨verseCollName "BSB", []⟩]⟩ (verseCollName "BSB") X
        = ⟨[⟨verseCollName "BSB", X⟩]⟩ := by
    intro X
    unfold addToCollection
    simp
  have hc2 : c2state
      = ⟨[⟨verseCollName "BSB", (c2records.map (verseEntry (fun _ => []) "BSB")).take 100⟩]⟩ := by
    unfold c2state
    rw [hstep]
    show addToCollection (getOrCreate ⟨[]⟩ (verseCollName "BSB")) (verseCollName "BSB") _ = _
    rw [hgoc, hadd]
  have hhas : hasCollection c2state (verseCollName "BSB") = true := by
    rw [hc2]
    unfold hasCollection
    simp
  refine ⟨?_, ?_, ?_, ?_, ?_⟩
  · rw [hstep]
  · rw [← hnm]
    exact hhas
  · rw [hc2, ← hnm]
    unfold entriesOf
    rw [List.find?_cons_of_pos _ (by simp)]
    rw [List.length_take, hlen]
    decide
  · simp [c2records]
  · exact ensure_of_present c2state c2records "BSB" (fun _ => []) (fun _ => true) hhas

/-! ## C3 — ranked similarity search -/

theorem sqDist_nonneg (a b : List ℚ) : 0 ≤ sqDist a b := by
  induction a generalizing b with
  | nil => cases b <;> simp [sqDist]
  | cons x xs ih =>
    cases b with
    | nil => simp [sqDist]
    | cons y ys =>
      simp only [sqDist]
      exact add_nonneg (mul_self_nonneg (x - y)) (ih ys)

theorem search_verses_none {s : VState} {translation : String}
    (h : s.collections.find? (fun c => c.name == verseCollName translation) = none)
    (embed : String → List ℚ) (query : String) (limit : Nat) :
    search_verses s embed query translation limit = [] := by
  unfold search_verses
  dsimp only
  rw [h]

theorem search_verses_some {s : VState} {translation : String} {c : VCollection}
    (h : s.collections.find? (fun c => c.name == verseCollName translation) = some c)
    (embed : String → List ℚ) (query : String) (limit : Nat) :
    search_verses s embed query translation limit
      = (nnQuery c.entries (embed query) limit).map (fun e =>
          { book := e.metadata.book
            chapter := e.metadata.chapter
            verse := e.metadata.verse
            reference := e.metadata.reference
            text := e.metadata.text
            translation := e.metadata.translation
            similarity_score := 1 - sqDist (embed query) e.vector
            full_document := e.document }) := by
  unfold search_verses
  dsimp only
  rw [h]

/-- C3 (amended): `search_verses` returns at most `limit` results, ordered by
non-increasing similarity, and every similarity is at most 1 (nearest-neighbor
distances are nonnegative); similarities can drop below 0, so
"similarity ∈ [0,1]" fails in general — see the counterexample. -/
theorem search_verses_ranked (s : VState) (embed : String → List ℚ)
    (query translation : String) (limit : Nat) :
    (search_verses s embed query translation limit).length ≤ limit
    ∧ List.Pairwise (fun a b => b.similarity_score ≤ a.similarity_score)
        (search_verses s embed query translation limit)
    ∧ ∀ r ∈ search_verses s embed query translation limit, r.similarity_score ≤ 1 := by
  cases hfind : s.collections.find? (fun c => c.name == verseCollName translation) with
  | none =>
    rw [search_verses_none hfind]
    simp
  | some c =>
    rw [search_verses_some hfind]
    refine ⟨?_, ?_, ?_⟩
    · rw [List.length_map]
      exact List.length_take_le _ _
    · rw [List.pairwise_map]
      have hsorted : List.Sorted
          (fun a b : VEntry => sqDist (embed query) a.vector ≤ sqDist (embed query) b.vector)
          (List.insertionSort
            (fun a b => sqDist (embed query) a.vector ≤ sqDist (embed query) b.vector)
            c.entries) := by
        haveI ht : IsTotal VEntry
            (fun a b => sqDist (embed query) a.vector ≤ sqDist (embed query) b.vector) :=
          ⟨fun a b => le_total _ _⟩
        haveI htr : IsTrans VEntry
            (fun a b => sqDist (embed query) a.vector ≤ sqDist (embed query) b.vector) :=
          ⟨fun _ _ _ h h2 => le_trans h h2⟩
        exact List.sorted_insertionSort _ _
      have htake : List.Pairwise
          (fun a b : VEntry => sqDist (embed query) a.vector ≤ sqDist (embed query) b.vector)
          (nnQuery c.entries (embed query) limit) :=
        List.Pairwise.sublist (List.take_sublist _ _) hsorted
      exact htake.imp (fun h => sub_le_sub_left h 1)
    · intro r hr
      obtain ⟨e, he, rfl⟩ := List.mem_map.mp hr
      have h := sqDist_nonneg (embed query) e.vector
      show 1 - sqDist (embed query) e.vector ≤ 1
      linarith

/-- C3 counterexample: a stored vector at squared distance 4 from the query
embedding yields similarity `1 - 4 = -3`, outside `[0,1]` — refuting
"every similarity lies in [0,1]". -/
theorem search_similarity_negative_counterexample :
    (search_verses c3state (fun _ => [2]) "love" "BSB" 5).map SearchResult.similarity_score
      = [1 - sqDist [2] [0]]
    ∧ (1 - sqDist [2] [0] : ℚ) = -3
    ∧ ¬ (0 ≤ (-3 : ℚ)) := by
  refine ⟨rfl, ?_, by norm_num⟩
  show (1 : ℚ) - ((2 - 0) * (2 - 0) + 0) = -3
  norm_num

end Aria
